import Mathlib

/-!
# Verification of the LuaVela `math` library PRNG (src/src/lib/math.c)

This file gives a shallow embedding of the pseudo-random number generator of
the LuaVela `math` library: the TW223 Tausworthe step function
(`lj_math_random_step`), the seeding procedure (`random_init`), and the two
user-visible entry points (`math_random`, `math_randomseed`).

Machine integers (`uint64_t`, `uint32_t`) are embedded as `Nat` with explicit
reduction `% 2^64` (resp. `% 2^32`) at every operation that can overflow.
Lua numbers (C `double`s) are embedded as `ℚ`; the two floating-point
operations whose bit-level behaviour is platform arithmetic — the seed
scrambling `d = d*pi + e` and the reading of a double's bit pattern through
the `FpConv` union — are kept abstract as parameters `next : ℚ → ℚ` and
`bits : ℚ → Nat`.  All theorems below are proved for every choice of these
parameters, so nothing depends on properties of the host floating point
beyond what the embedding makes explicit.
-/

namespace LuaVelaMath

/-- PRNG state, from `struct RandomState`: four 64-bit LFSR words and a
validity flag.  The C array `gen[4]` is embedded as four named fields. -/
structure RandomState where
  gen0 : Nat
  gen1 : Nat
  gen2 : Nat
  gen3 : Nat
  valid : Bool
deriving DecidableEq, Repr

/-- The per-lane `(k, q, s)` parameters of the four LFSR lanes, exactly as the
four `TW223_GEN(i, k, q, s)` invocations in `lj_math_random_step` list them. -/
def tw223_params : List (Nat × Nat × Nat) :=
  [(63, 31, 18), (58, 19, 28), (55, 24, 7), (47, 21, 8)]

/-- One lane update, from the C macro `TW223_GEN(i, k, q, s)`:
`z = (((z<<q)^z) >> (k-s)) ^ ((z & ((uint64_t)(int64_t)-1 << (64-k))) << s)`,
all operations on `uint64_t`. -/
def TW223_GEN (k q s z : Nat) : Nat :=
  ((((z <<< q) % 2 ^ 64) ^^^ z) >>> (k - s)) ^^^
    (((z &&& (((2 ^ 64 - 1) <<< (64 - k)) % 2 ^ 64)) <<< s) % 2 ^ 64)

/-- PRNG step function, from `lj_math_random_step`: update the four lanes in
order, accumulate the running xor `r`, and return the digest
`(r & 0x000fffffffffffff) | 0x3ff0000000000000` together with the new state.
The digest, reinterpreted as an IEEE-754 double, is a value in `[1.0, 2.0)`. -/
def lj_math_random_step (rs : RandomState) : Nat × RandomState :=
  let z0 := TW223_GEN 63 31 18 rs.gen0
  let z1 := TW223_GEN 58 19 28 rs.gen1
  let z2 := TW223_GEN 55 24 7 rs.gen2
  let z3 := TW223_GEN 47 21 8 rs.gen3
  let r := (((0 ^^^ z0) ^^^ z1) ^^^ z2) ^^^ z3
  ((r &&& 0x000fffffffffffff) ||| 0x3ff0000000000000,
   { gen0 := z0, gen1 := z1, gen2 := z2, gen3 := z3, valid := rs.valid })

/-- The state effect of one step call (the C function mutates `*rs`). -/
def stepState (rs : RandomState) : RandomState :=
  (lj_math_random_step rs).2

/-- `n` successive step calls (state effect only). -/
def stepN : Nat → RandomState → RandomState
  | 0, rs => rs
  | n + 1, rs => stepN n (stepState rs)

/-- The non-degeneracy fix of `random_init`:
`if (conv.u < m) conv.u += m;` applied to the bit pattern of the scrambled
seed. -/
def seedFix (u m : Nat) : Nat :=
  if u < m then u + m else u

section Abstract

variable (next : ℚ → ℚ) (bits : ℚ → Nat)

/-- The first phase of `random_init`: the loop `for (i = 0; i < 4; i++)`
unrolled (the C loop has a fixed trip count of four).  `r` starts at
`0x11090601` and loses its low byte each iteration; `m = 1u << (r & 255)` is a
`uint32_t`; the seed double is scrambled by
`d = d * 3.14159265358979323846 + 2.7182818284590452354` (abstracted as
`next`), its bit pattern read through the union (abstracted as `bits`), fixed
up by `seedFix`, and stored in the lane; finally `rs->valid = 1`. -/
def seedCore (d : ℚ) : RandomState :=
  let r0 : Nat := 0x11090601
  let m0 := (1 <<< (r0 &&& 255)) % 2 ^ 32
  let r1 := r0 >>> 8
  let d0 := next d
  let u0 := seedFix (bits d0) m0
  let m1 := (1 <<< (r1 &&& 255)) % 2 ^ 32
  let r2 := r1 >>> 8
  let d1 := next d0
  let u1 := seedFix (bits d1) m1
  let m2 := (1 <<< (r2 &&& 255)) % 2 ^ 32
  let r3 := r2 >>> 8
  let d2 := next d1
  let u2 := seedFix (bits d2) m2
  let m3 := (1 <<< (r3 &&& 255)) % 2 ^ 32
  let d3 := next d2
  let u3 := seedFix (bits d3) m3
  { gen0 := u0, gen1 := u1, gen2 := u2, gen3 := u3, valid := true }

/-- PRNG initialization, from `random_init`: fill the four lanes and set the
flag (`seedCore`), then perform ten step calls whose results are discarded.
The prior contents of `rs` are never read. -/
def random_init (_rs : RandomState) (d : ℚ) : RandomState :=
  stepN 10 (seedCore next bits d)

end Abstract

/-- A Lua value as seen by the argument extractor: a number, a string that
coerces to a number, or a value that does not coerce (any other type). -/
inductive LuaVal where
  | num (x : ℚ)
  | numstr (x : ℚ)
  | bad
deriving DecidableEq

/-- Modelled from the spec: the numeric-argument extractor `uj_lib_checknum`
(its implementation lives in `uj_lib.c`, outside the provided source).  It
yields the numeric value of a number or numeric-string argument and fails
with `ArgTypeError` (here `none`) otherwise; a missing argument slot also
fails. -/
def uj_lib_checknum : LuaVal → Option ℚ
  | .num x => some x
  | .numstr x => some x
  | .bad => none

/-- Modelled from the spec: the Bit-Reinterpretation Primitive `f64_of_u64`
(the `FpConv` union of `utils/fp.h`, outside the provided source), restricted
to the IEEE-754 binary64 encodings with a normal (nonzero, non-maximal)
exponent field: sign bit 63, biased exponent in bits 52–62, and 52 fraction
bits, so the value is `(-1)^sign * 2^(e-1075) * (2^52 + frac)`.  Every digest
produced by `lj_math_random_step` has exponent field `0x3ff` and sign `0`, so
it lies in this class. -/
def f64val (u : Nat) : ℚ :=
  (if (u >>> 63) % 2 = 1 then (-1 : ℚ) else 1) *
    (((2 : ℚ) ^ 52 + ((u % 2 ^ 52 : Nat) : ℚ)) * (2 : ℚ) ^ ((u >>> 52) % 2048) / (2 : ℚ) ^ 1075)

section Abstract2

variable (next : ℚ → ℚ) (bits : ℚ → Nat)

/-- The `math.random` C function `math_random`, from the source: lazily seed
with `d = 0.0` if the state is invalid, advance the state by one step, form
`d = conv.d - 1.0` from the digest (exact, since the digest double and the
result are both dyadic rationals with 52-bit fractions), then shape by
argument count, extracting argument 1 and, when present, argument 2 — and no
others — with `uj_lib_checknum`.  The returned pair carries the Lua-level
outcome (`Except.error ()` is the `ArgTypeError` raised by the extractor) and
the state after the call; note that the seeding and the step happen before
any argument is examined. -/
def math_random (rs : RandomState) (args : List LuaVal) :
    Except Unit ℚ × RandomState :=
  let rs1 := if rs.valid then rs else random_init next bits rs 0
  let res := lj_math_random_step rs1
  let d : ℚ := f64val res.1 - 1
  match args with
  | [] => (Except.ok d, res.2)
  | a1 :: rest =>
    match uj_lib_checknum a1 with
    | none => (Except.error (), res.2)
    | some r1 =>
      match rest with
      | [] => (Except.ok ((⌊d * r1⌋ : ℚ) + 1), res.2)
      | a2 :: _ =>
        match uj_lib_checknum a2 with
        | none => (Except.error (), res.2)
        | some r2 => (Except.ok ((⌊d * (r2 - r1 + 1)⌋ : ℚ) + r1), res.2)

/-- The `math.randomseed` C function `math_randomseed`: extract the seed with
`uj_lib_checknum(L, 1)` (raising `ArgTypeError` before any state change) and
reseed via `random_init`. -/
def math_randomseed (rs : RandomState) (args : List LuaVal) :
    Except Unit Unit × RandomState :=
  match uj_lib_checknum (args.getD 0 .bad) with
  | none => (Except.error (), rs)
  | some d => (Except.ok (), random_init next bits rs d)

end Abstract2

/-- Whether a Lua-level outcome is the `ArgTypeError` raised by the
argument extractor. -/
def isArgTypeError {α : Type} : Except Unit α → Bool
  | .error _ => true
  | .ok _ => false

/-- The four LFSR words of a state, as the list the C array `gen[4]` holds. -/
def genLanes (rs : RandomState) : List Nat :=
  [rs.gen0, rs.gen1, rs.gen2, rs.gen3]

/-- The per-lane `k` parameters `k = {63, 58, 55, 47}` named by the spec's
non-degeneracy condition. -/
def kList : List Nat :=
  [63, 58, 55, 47]

/-- The shift amount used for lane `i` of the seeder: the `i`-th LSB-first
byte of `0x11090601`. -/
def seed_shift (i : Nat) : Nat :=
  (0x11090601 >>> (8 * i)) &&& 255

/-- `MASK_TOP_k(z)` as §4.2 of the spec words it: `z` with the bottom `64 - k`
bits forced to zero, i.e. `z & (~0ULL << (64-k))`. -/
def MASK_TOP (k z : Nat) : Nat :=
  z &&& (((2 ^ 64 - 1) <<< (64 - k)) % 2 ^ 64)

/-- One lane of the Step Engine as §4.2 of the spec words it:
`z' = (((z << q) XOR z) >> (k - s)) XOR (MASK_TOP_k(z) << s)`. -/
def step_engine_spec_lane (k q s z : Nat) : Nat :=
  ((((z <<< q) % 2 ^ 64) ^^^ z) >>> (k - s)) ^^^ ((MASK_TOP k z <<< s) % 2 ^ 64)

/-- The Step Engine as §4.2 of the spec words it: apply the lane update to
each lane `i = 0..3` in order with the parameters taken from the table
`tw223_params`, accumulate `r` (initialized to 0) by xor, and return
`(r AND 0x000FFFFFFFFFFFFF) OR 0x3FF0000000000000` with the new state. -/
def step_engine_spec (rs : RandomState) : Nat × RandomState :=
  let p0 := tw223_params.getD 0 (0, 0, 0)
  let p1 := tw223_params.getD 1 (0, 0, 0)
  let p2 := tw223_params.getD 2 (0, 0, 0)
  let p3 := tw223_params.getD 3 (0, 0, 0)
  let z0 := step_engine_spec_lane p0.1 p0.2.1 p0.2.2 rs.gen0
  let z1 := step_engine_spec_lane p1.1 p1.2.1 p1.2.2 rs.gen1
  let z2 := step_engine_spec_lane p2.1 p2.2.1 p2.2.2 rs.gen2
  let z3 := step_engine_spec_lane p3.1 p3.2.1 p3.2.2 rs.gen3
  let r := (((0 ^^^ z0) ^^^ z1) ^^^ z2) ^^^ z3
  ((r &&& 0x000fffffffffffff) ||| 0x3ff0000000000000,
   { gen0 := z0, gen1 := z1, gen2 := z2, gen3 := z3, valid := rs.valid })

/-- The Seeder as §4.3 of the spec words it: a loop over `i = 0..3` carrying
`(r, d, lanes)`, with `shift = r AND 0xFF`, `r = r >> 8`, `m = 1 << shift` as
a 32-bit value, `d` scrambled (abstract `next`), `u = u64_of_f64 d` (abstract
`bits`), the `u < m` fix, and lane `i` set to `u`; then `valid = true` and
ten discarded Step Engine calls. -/
def seeder_spec (next : ℚ → ℚ) (bits : ℚ → Nat) (d : ℚ) : RandomState :=
  let loop :=
    (List.range 4).foldl
      (fun (st : Nat × ℚ × List Nat) _ =>
        let r := st.1
        let dd := st.2.1
        let acc := st.2.2
        let shift := r &&& 0xff
        let m := (1 <<< shift) % 2 ^ 32
        let dd1 := next dd
        let u0 := bits dd1
        let u := if u0 < m then u0 + m else u0
        (r >>> 8, dd1, acc ++ [u]))
      (0x11090601, d, [])
  match loop.2.2 with
  | [u0, u1, u2, u3] => stepN 10 { gen0 := u0, gen1 := u1, gen2 := u2, gen3 := u3, valid := true }
  | _ => { gen0 := 0, gen1 := 0, gen2 := 0, gen3 := 0, valid := true }

section Reachability

variable (next : ℚ → ℚ) (bits : ℚ → Nat)

/-- The outcomes of `n` successive zero-argument `math.random()` calls,
threading the state. -/
def randomSeq : Nat → RandomState → List (Except Unit ℚ)
  | 0, _ => []
  | n + 1, rs =>
    let out := math_random next bits rs []
    out.1 :: randomSeq n out.2

/-- States reachable from a state produced by seeding through any sequence of
`math.random` and `math.randomseed` calls (with arbitrary arguments). -/
inductive Reach : RandomState → Prop
  | seeded (rs : RandomState) (d : ℚ) : Reach (random_init next bits rs d)
  | called_random (rs : RandomState) (args : List LuaVal) :
      Reach rs → Reach (math_random next bits rs args).2
  | called_randomseed (rs : RandomState) (args : List LuaVal) :
      Reach rs → Reach (math_randomseed next bits rs args).2

end Reachability


/-!
## A GF(2)-linearity toolkit for `Nat` bit vectors

The lane update `TW223_GEN k q s` is linear over xor.  To show that it
preserves the non-degeneracy condition (top `k` bits not all zero) we exhibit,
for each lane, an explicit left inverse of the induced map on the top-`k`-bit
window, given by its matrix columns, and check it on the 64 basis vectors by
computation.
-/

theorem xor_left_comm (a b c : Nat) : a ^^^ (b ^^^ c) = b ^^^ (a ^^^ c) := by
  rw [← Nat.xor_assoc, Nat.xor_comm a b, Nat.xor_assoc]

theorem xor_cancel_left (a b : Nat) : a ^^^ (a ^^^ b) = b := by
  rw [← Nat.xor_assoc, Nat.xor_self, Nat.zero_xor]

theorem xor_xor_xor_comm (a b c d : Nat) :
    (a ^^^ b) ^^^ (c ^^^ d) = (a ^^^ c) ^^^ (b ^^^ d) := by
  simp only [Nat.xor_assoc]
  rw [xor_left_comm b c d]

theorem xor_shiftLeft (a b i : Nat) : (a ^^^ b) <<< i = a <<< i ^^^ b <<< i := by
  apply Nat.eq_of_testBit_eq
  intro j
  simp only [Nat.testBit_shiftLeft, Nat.testBit_xor]
  by_cases h : i ≤ j <;> simp [h]

theorem xor_shiftRight (a b i : Nat) : (a ^^^ b) >>> i = a >>> i ^^^ b >>> i := by
  apply Nat.eq_of_testBit_eq
  intro j
  simp [Nat.testBit_shiftRight, Nat.testBit_xor]

theorem xor_mod_two_pow (a b n : Nat) :
    (a ^^^ b) % 2 ^ n = a % 2 ^ n ^^^ b % 2 ^ n := by
  simp only [← Nat.and_pow_two_sub_one_eq_mod]
  exact Nat.and_xor_distrib_right

theorem TW223_GEN_zero (k q s : Nat) : TW223_GEN k q s 0 = 0 := by
  simp [TW223_GEN]

theorem TW223_GEN_xor (k q s a b : Nat) :
    TW223_GEN k q s (a ^^^ b) = TW223_GEN k q s a ^^^ TW223_GEN k q s b := by
  unfold TW223_GEN
  rw [xor_shiftLeft, xor_mod_two_pow, xor_xor_xor_comm, xor_shiftRight,
    Nat.and_xor_distrib_right, xor_shiftLeft, xor_mod_two_pow, xor_xor_xor_comm]

/-- `z < 2^64` is preserved by a lane update. -/
theorem TW223_GEN_lt (k q s : Nat) {z : Nat} (hz : z < 2 ^ 64) :
    TW223_GEN k q s z < 2 ^ 64 := by
  unfold TW223_GEN
  apply Nat.xor_lt_two_pow
  · have h1 : (z <<< q) % 2 ^ 64 ^^^ z < 2 ^ 64 :=
      Nat.xor_lt_two_pow (Nat.mod_lt _ (by positivity)) hz
    have h2 : ((z <<< q) % 2 ^ 64 ^^^ z) >>> (k - s) ≤ (z <<< q) % 2 ^ 64 ^^^ z := by
      rw [Nat.shiftRight_eq_div_pow]
      exact Nat.div_le_self _ _
    exact lt_of_le_of_lt h2 h1
  · exact Nat.mod_lt _ (by positivity)

/-- Apply the GF(2) linear map whose matrix columns are `cols` (column `j`
is the image of bit `j`) to the bit vector `x`. -/
def linApply : List Nat → Nat → Nat
  | [], _ => 0
  | c :: cs, x => (if x % 2 = 1 then c else 0) ^^^ linApply cs (x / 2)

theorem linApply_zero (cols : List Nat) : linApply cols 0 = 0 := by
  induction cols with
  | nil => rfl
  | cons c cs ih => simp [linApply, ih]

theorem linApply_xor (cols : List Nat) (a b : Nat) :
    linApply cols (a ^^^ b) = linApply cols a ^^^ linApply cols b := by
  induction cols generalizing a b with
  | nil => simp [linApply]
  | cons c cs ih =>
    have h2 : (a ^^^ b) % 2 = a % 2 ^^^ b % 2 := by
      simpa using xor_mod_two_pow a b 1
    simp only [linApply, Nat.xor_div_two, ih]
    rcases Nat.mod_two_eq_zero_or_one a with ha | ha <;>
      rcases Nat.mod_two_eq_zero_or_one b with hb | hb <;>
        simp [h2, ha, hb, Nat.xor_assoc, Nat.xor_comm, xor_left_comm, xor_cancel_left]

theorem linApply_eq_zero_of (cols : List Nat) (x : Nat)
    (h : ∀ j, x.testBit j = true → cols.getD j 0 = 0) : linApply cols x = 0 := by
  induction cols generalizing x with
  | nil => rfl
  | cons c cs ih =>
    have hrec : ∀ j, (x / 2).testBit j = true → cs.getD j 0 = 0 := by
      intro j hj
      exact h (j + 1) (by rw [Nat.testBit_add_one]; exact hj)
    rw [linApply, ih _ hrec]
    by_cases hx : x % 2 = 1
    · have : c = 0 := h 0 (by simp [Nat.testBit_zero, hx])
      simp [hx, this]
    · simp [hx]

theorem two_pow_xor_eq_add {n a : Nat} (h : a < 2 ^ n) : 2 ^ n ^^^ a = 2 ^ n + a := by
  have hor : 2 ^ n + a = 2 ^ n ||| a := by simpa using Nat.mul_add_lt_is_or h 1
  rw [hor]
  apply Nat.eq_of_testBit_eq
  intro j
  simp only [Nat.testBit_xor, Nat.testBit_or, Nat.testBit_two_pow]
  by_cases hj : n = j
  · subst hj
    simp [Nat.testBit_lt_two_pow h]
  · simp [hj]

/-- Two GF(2)-linear maps on `Nat` that agree on the basis vectors
`2^j`, `j < n`, agree on every `x < 2^n`. -/
theorem lin_eq_of_basis {f g : Nat → Nat} (hf0 : f 0 = 0) (hg0 : g 0 = 0)
    (hf : ∀ a b, f (a ^^^ b) = f a ^^^ f b) (hg : ∀ a b, g (a ^^^ b) = g a ^^^ g b) :
    ∀ n, (∀ j, j < n → f (2 ^ j) = g (2 ^ j)) → ∀ x, x < 2 ^ n → f x = g x := by
  intro n
  induction n with
  | zero =>
    intro _ x hx
    have : x = 0 := Nat.lt_one_iff.mp hx
    rw [this, hf0, hg0]
  | succ n ih =>
    intro hbase x hx
    by_cases hlt : x < 2 ^ n
    · exact ih (fun j hj => hbase j (by omega)) x hlt
    · push_neg at hlt
      have hpow : 2 ^ (n + 1) = 2 ^ n + 2 ^ n := by ring
      have ha : x - 2 ^ n < 2 ^ n := by omega
      have hxeq : x = 2 ^ n ^^^ (x - 2 ^ n) := by
        rw [two_pow_xor_eq_add ha]; omega
      rw [hxeq, hf, hg, hbase n (by omega),
        ih (fun j hj => hbase j (by omega)) (x - 2 ^ n) ha]

/-- Columns of a GF(2) left inverse for the lane map with (k,q,s) = (63,31,18):
column `j` is the image of input bit `j`; columns for the low
(masked-away) input bits are zero. -/
def Hcols63 : List Nat := [
  0, 70368744177664, 140737488355328, 281474976710656,
  562949953421312, 1125899906842624, 2251799813685248, 4503599627370496,
  9007199254740992, 18014398509481984, 36028797018963968, 72057594037927936,
  144115188075855872, 288230376151711744, 576460752303423488, 1152921504606846976,
  2305843009213693952, 4611686018427387904, 9223372036854775808, 2,
  4, 8, 16, 32,
  64, 128, 256, 512,
  1024, 2048, 4096, 8192,
  16384, 70368744210432, 140737488420864, 281474976841728,
  562949953683456, 1125899907366912, 2251799814733824, 4503599629467648,
  9007199258935296, 18014398517870592, 36028797035741184, 72057594071482368,
  144115188142964736, 288230376285929472, 576460752571858944, 1152921505143717888,
  2305843010287435776, 4611686020574871552, 9223372041149743104, 8589934592,
  17179869184, 34359738368, 68719476736, 137438953472,
  274877906944, 549755813888, 1099511627776, 2199023255552,
  4398046511104, 8796093022208, 17592186044416, 35184372088832]

/-- Columns of a GF(2) left inverse for the lane map with (k,q,s) = (58,19,28):
column `j` is the image of input bit `j`; columns for the low
(masked-away) input bits are zero. -/
def Hcols58 : List Nat := [
  0, 0, 0, 0,
  0, 0, 36028865738440704, 72057731476881408,
  144115462953762816, 288230925907525632, 576461851815051264, 1152923703630102528,
  2305847407260205056, 4611694814520410112, 9223389629040820224, 35184372088832,
  70368744177664, 140737488355328, 281474976710656, 562949953421312,
  1125899906842624, 2251799813685248, 4503599627370496, 9007199254740992,
  18014398509481984, 36028797018963968, 72057594037927936, 144115188075855872,
  288230376151711744, 576460752303423488, 1152921504606846976, 2305843009213693952,
  4611686018427387904, 9223372036854775808, 64, 128,
  256, 512, 1024, 2048,
  4096, 8192, 16384, 32768,
  65536, 36028865738571776, 72057731477143552, 144115462954287104,
  288230925908574208, 576461851817148416, 1152923703634296832, 2305847407268593664,
  4611694814537187328, 9223389629074374656, 35184439197696, 70368878395392,
  140737756790784, 281475513581568, 562951027163136, 1125902054326272,
  2251804108652544, 4503608217305088, 9007216434610176, 18014432869220352]

/-- Columns of a GF(2) left inverse for the lane map with (k,q,s) = (55,24,7):
column `j` is the image of input bit `j`; columns for the low
(masked-away) input bits are zero. -/
def Hcols55 : List Nat := [
  0, 0, 0, 0,
  0, 0, 0, 0,
  0, 144115188075855872, 288230376151711744, 576460752303423488,
  1152921504606846976, 2305843009213693952, 4611686018427387904, 9223372036854775808,
  512, 1024, 2048, 4096,
  8192, 16384, 32768, 65536,
  131072, 262144, 524288, 1048576,
  2097152, 4194304, 8388608, 16777216,
  33554432, 67108864, 134217728, 268435456,
  536870912, 1073741824, 2147483648, 4294967296,
  144115196665790464, 288230393331580928, 576460786663161856, 1152921573326323712,
  2305843146652647424, 4611686293305294848, 9223372586610589696, 1099511627776,
  2199023255552, 4398046511104, 8796093022208, 17592186044416,
  35184372088832, 70368744177664, 140737488355328, 281474976710656,
  562949953421312, 1125899906842624, 2251799813685248, 4503599627370496,
  9007199254740992, 18014398509481984, 36028797018963968, 72057594037927936]

/-- Columns of a GF(2) left inverse for the lane map with (k,q,s) = (47,21,8):
column `j` is the image of input bit `j`; columns for the low
(masked-away) input bits are zero. -/
def Hcols47 : List Nat := [
  0, 0, 0, 0,
  0, 0, 0, 0,
  0, 0, 0, 0,
  0, 0, 0, 0,
  0, 72057594037927936, 144115188075855872, 288230376151711744,
  576460752303423488, 1152921504606846976, 2305843009213693952, 4611686018427387904,
  9223372036854775808, 131072, 262144, 524288,
  1048576, 2097152, 4194304, 8388608,
  16777216, 33554432, 67108864, 134217728,
  268435456, 536870912, 1073741824, 2147483648,
  4294967296, 8589934592, 17179869184, 72057628397666304,
  144115256795332608, 288230513590665216, 576461027181330432, 1152922054362660864,
  2305844108725321728, 4611688217450643456, 9223376434901286912, 8796093022208,
  17592186044416, 35184372088832, 70368744177664, 140737488355328,
  281474976710656, 562949953421312, 1125899906842624, 2251799813685248,
  4503599627370496, 9007199254740992, 18014398509481984, 36028797018963968]

/-- If the GF(2) map given by `cols` sends the lane-updated basis vector
`TW223_GEN k q s (2^j)` back to `2^j &&& topmask` for every `j < 64`, and its
columns below position `t` are zero, then the lane update preserves the
condition "the bits at positions `t, …, 63` are not all zero" on 64-bit
words.  This is the non-degeneracy preservation argument: the lane update is
linear over xor and injective on the top-bit window. -/
theorem TW223_GEN_top_ne_zero (k q s t : Nat) (cols : List Nat)
    (hbasis : ∀ j, j < 64 →
      linApply cols (TW223_GEN k q s (2 ^ j)) = 2 ^ j &&& (((2 ^ 64 - 1) <<< t) % 2 ^ 64))
    (hlow : ∀ j, j < t → cols.getD j 0 = 0)
    (z : Nat) (hz : z < 2 ^ 64) (hnz : z >>> t ≠ 0) :
    TW223_GEN k q s z >>> t ≠ 0 := by
  intro h0
  have hlt : TW223_GEN k q s z < 2 ^ t := by
    rw [Nat.shiftRight_eq_div_pow] at h0
    by_contra hcon
    push_neg at hcon
    have := (Nat.one_le_div_iff (Nat.pos_pow_of_pos t (by norm_num))).mpr hcon
    omega
  have hmain : ∀ x, x < 2 ^ 64 →
      linApply cols (TW223_GEN k q s x) = x &&& (((2 ^ 64 - 1) <<< t) % 2 ^ 64) := by
    refine lin_eq_of_basis ?_ ?_ ?_ ?_ 64 hbasis
    · rw [TW223_GEN_zero, linApply_zero]
    · exact Nat.zero_and _
    · intro a b
      rw [TW223_GEN_xor, linApply_xor]
    · intro a b
      exact Nat.and_xor_distrib_right
  have hz0 : linApply cols (TW223_GEN k q s z) = 0 := by
    refine linApply_eq_zero_of _ _ (fun j hj => hlow j ?_)
    have hge := Nat.testBit_implies_ge hj
    exact (Nat.pow_lt_pow_iff_right (by norm_num : 1 < 2)).mp (lt_of_le_of_lt hge hlt)
  have hand : z &&& (((2 ^ 64 - 1) <<< t) % 2 ^ 64) = 0 := by
    rw [← hmain z hz]
    exact hz0
  have hge : 2 ^ t ≤ z := by
    by_contra hcon
    push_neg at hcon
    exact hnz (by rw [Nat.shiftRight_eq_div_pow]; exact Nat.div_eq_of_lt hcon)
  obtain ⟨j, hjt, hbit⟩ := Nat.ge_two_pow_implies_high_bit_true hge
  have hj64 : j < 64 := by
    have hge2 := Nat.testBit_implies_ge hbit
    exact (Nat.pow_lt_pow_iff_right (by norm_num : 1 < 2)).mp (lt_of_le_of_lt hge2 hz)
  have hbitand : (z &&& (((2 ^ 64 - 1) <<< t) % 2 ^ 64)).testBit j = true := by
    rw [Nat.testBit_and, hbit, Bool.true_and, Nat.testBit_mod_two_pow,
      Nat.testBit_shiftLeft, Nat.testBit_two_pow_sub_one]
    simp only [Bool.and_eq_true, decide_eq_true_eq]
    exact ⟨hj64, hjt, by omega⟩
  rw [hand] at hbitand
  simp at hbitand

/-- Lane 0 (`k = 63`) preserves non-degeneracy. -/
theorem lane0_preserve {z : Nat} (hz : z < 2 ^ 64) (h : z >>> 1 ≠ 0) :
    TW223_GEN 63 31 18 z >>> 1 ≠ 0 :=
  TW223_GEN_top_ne_zero 63 31 18 1 Hcols63 (by decide) (by decide) z hz h

/-- Lane 1 (`k = 58`) preserves non-degeneracy. -/
theorem lane1_preserve {z : Nat} (hz : z < 2 ^ 64) (h : z >>> 6 ≠ 0) :
    TW223_GEN 58 19 28 z >>> 6 ≠ 0 :=
  TW223_GEN_top_ne_zero 58 19 28 6 Hcols58 (by decide) (by decide) z hz h

/-- Lane 2 (`k = 55`) preserves non-degeneracy. -/
theorem lane2_preserve {z : Nat} (hz : z < 2 ^ 64) (h : z >>> 9 ≠ 0) :
    TW223_GEN 55 24 7 z >>> 9 ≠ 0 :=
  TW223_GEN_top_ne_zero 55 24 7 9 Hcols55 (by decide) (by decide) z hz h

/-- Lane 3 (`k = 47`) preserves non-degeneracy. -/
theorem lane3_preserve {z : Nat} (hz : z < 2 ^ 64) (h : z >>> 17 ≠ 0) :
    TW223_GEN 47 21 8 z >>> 17 ≠ 0 :=
  TW223_GEN_top_ne_zero 47 21 8 17 Hcols47 (by decide) (by decide) z hz h


/-!
## The state invariant
-/

/-- The invariant the spec's §3 states for a valid PRNG state: each lane is a
64-bit word and, for `k = {63, 58, 55, 47}`, the top `k` bits of lane `i` —
its bits at positions `64 - k, …, 63` — are not all zero. -/
def stateOK (rs : RandomState) : Prop :=
  (rs.gen0 < 2 ^ 64 ∧ rs.gen0 >>> 1 ≠ 0) ∧
  (rs.gen1 < 2 ^ 64 ∧ rs.gen1 >>> 6 ≠ 0) ∧
  (rs.gen2 < 2 ^ 64 ∧ rs.gen2 >>> 9 ≠ 0) ∧
  (rs.gen3 < 2 ^ 64 ∧ rs.gen3 >>> 17 ≠ 0)

/-- One step call preserves the invariant. -/
theorem stepState_ok {rs : RandomState} (h : stateOK rs) : stateOK (stepState rs) := by
  obtain ⟨⟨h0l, h0⟩, ⟨h1l, h1⟩, ⟨h2l, h2⟩, ⟨h3l, h3⟩⟩ := h
  exact ⟨⟨TW223_GEN_lt _ _ _ h0l, lane0_preserve h0l h0⟩,
    ⟨TW223_GEN_lt _ _ _ h1l, lane1_preserve h1l h1⟩,
    ⟨TW223_GEN_lt _ _ _ h2l, lane2_preserve h2l h2⟩,
    ⟨TW223_GEN_lt _ _ _ h3l, lane3_preserve h3l h3⟩⟩

/-- Any number of step calls preserves the invariant. -/
theorem stepN_ok : ∀ (n : Nat) {rs : RandomState}, stateOK rs → stateOK (stepN n rs)
  | 0, _, h => h
  | n + 1, _, h => stepN_ok n (stepState_ok h)

/-- The `u < m` fix of the seeder makes a lane non-degenerate: the result is
still a 64-bit word and its bits from position `t` up are not all zero. -/
theorem seedFix_lane (u t : Nat) (hu : u < 2 ^ 64) (ht : t ≤ 18) :
    seedFix u (2 ^ t) < 2 ^ 64 ∧ seedFix u (2 ^ t) >>> t ≠ 0 := by
  unfold seedFix
  by_cases h : u < 2 ^ t
  · rw [if_pos h]
    constructor
    · have hle : (2 : Nat) ^ t ≤ 2 ^ 18 := Nat.pow_le_pow_right (by norm_num) ht
      have hbig : (2 : Nat) ^ 18 + 2 ^ 18 < 2 ^ 64 := by norm_num
      omega
    · rw [Nat.shiftRight_eq_div_pow]
      have hone : (u + 2 ^ t) / 2 ^ t = 1 := Nat.div_eq_of_lt_le (by omega) (by omega)
      simp [hone]
  · rw [if_neg h]
    push_neg at h
    refine ⟨hu, ?_⟩
    rw [Nat.shiftRight_eq_div_pow]
    have := (Nat.one_le_div_iff (Nat.two_pow_pos t)).mpr h
    omega

/-- The four-lane seeding phase establishes the invariant, whatever double
bit patterns the scrambler produces. -/
theorem seedCore_ok (next : ℚ → ℚ) (bits : ℚ → Nat)
    (hbits : ∀ d, bits d < 2 ^ 64) (d : ℚ) : stateOK (seedCore next bits d) := by
  have h0 := seedFix_lane (bits (next d)) 1 (hbits _) (by norm_num)
  have h1 := seedFix_lane (bits (next (next d))) 6 (hbits _) (by norm_num)
  have h2 := seedFix_lane (bits (next (next (next d)))) 9 (hbits _) (by norm_num)
  have h3 := seedFix_lane (bits (next (next (next (next d))))) 17 (hbits _) (by norm_num)
  exact ⟨h0, h1, h2, h3⟩

/-- Seeding establishes the invariant. -/
theorem random_init_ok (next : ℚ → ℚ) (bits : ℚ → Nat)
    (hbits : ∀ d, bits d < 2 ^ 64) (rs : RandomState) (d : ℚ) :
    stateOK (random_init next bits rs d) :=
  stepN_ok 10 (seedCore_ok next bits hbits d)

/-- The state effect of a `math.random` call, whatever its arguments and
outcome: one step applied to the (lazily seeded) state. -/
theorem math_random_state (next : ℚ → ℚ) (bits : ℚ → Nat)
    (rs : RandomState) (args : List LuaVal) :
    (math_random next bits rs args).2 =
      stepState (if rs.valid then rs else random_init next bits rs 0) := by
  cases args with
  | nil => rfl
  | cons a1 rest =>
    cases h1 : uj_lib_checknum a1 with
    | none => simp [math_random, h1, stepState]
    | some r1 =>
      cases rest with
      | nil => simp [math_random, h1, stepState]
      | cons a2 rest2 =>
        cases h2 : uj_lib_checknum a2 with
        | none => simp [math_random, h1, h2, stepState]
        | some r2 => simp [math_random, h1, h2, stepState]

/-- The state effect of a `math.randomseed` call: unchanged on argument
error, reseeded on success. -/
theorem math_randomseed_state (next : ℚ → ℚ) (bits : ℚ → Nat)
    (rs : RandomState) (args : List LuaVal) :
    (math_randomseed next bits rs args).2 =
      match uj_lib_checknum (args.getD 0 .bad) with
      | none => rs
      | some d => random_init next bits rs d := by
  cases h : uj_lib_checknum (args.getD 0 .bad) <;>
    (unfold math_randomseed; rw [h])

/-- Every state reachable from a seeding through `math.random` and
`math.randomseed` calls satisfies the invariant. -/
theorem reach_ok {next : ℚ → ℚ} {bits : ℚ → Nat} (hbits : ∀ d, bits d < 2 ^ 64)
    {rs : RandomState} (h : Reach next bits rs) : stateOK rs := by
  induction h with
  | seeded rs0 d => exact random_init_ok next bits hbits rs0 d
  | called_random rs0 args _ ih =>
    rw [math_random_state]
    by_cases hv : rs0.valid = true
    · rw [if_pos hv]
      exact stepState_ok ih
    · rw [if_neg hv]
      exact stepState_ok (random_init_ok next bits hbits rs0 0)
  | called_randomseed rs0 args _ ih =>
    rw [math_randomseed_state]
    cases hc : uj_lib_checknum (args.getD 0 .bad) with
    | none => exact ih
    | some d => exact random_init_ok next bits hbits rs0 d


/-!
## The digest as a double
-/

/-- The digest `(r & 0x000fffffffffffff) | 0x3ff0000000000000`, read as a
double, is exactly `1 + frac / 2^52` where `frac` is the masked low 52 bits;
in particular it lies in `[1, 2)`. -/
theorem f64val_digest (r : Nat) :
    f64val ((r &&& 0x000fffffffffffff) ||| 0x3ff0000000000000) =
      1 + ((r &&& 0x000fffffffffffff : Nat) : ℚ) / 2 ^ 52 ∧
    1 ≤ f64val ((r &&& 0x000fffffffffffff) ||| 0x3ff0000000000000) ∧
    f64val ((r &&& 0x000fffffffffffff) ||| 0x3ff0000000000000) < 2 := by
  have e52 : (2 : Nat) ^ 52 = 4503599627370496 := by norm_num
  have halt : r &&& 0x000fffffffffffff < 2 ^ 52 := by
    have := Nat.and_le_right (n := r) (m := 0x000fffffffffffff)
    omega
  set a := r &&& 0x000fffffffffffff with ha
  have hadd : a ||| 0x3ff0000000000000 = 0x3ff0000000000000 + a := by
    have h1 : (0x3ff0000000000000 : Nat) = 2 ^ 52 * 1023 := by norm_num
    rw [h1, Nat.or_comm, ← Nat.mul_add_lt_is_or halt 1023]
  have hu63 : (0x3ff0000000000000 + a) >>> 63 = 0 := by
    rw [Nat.shiftRight_eq_div_pow]
    apply Nat.div_eq_of_lt
    have e63 : (2 : Nat) ^ 63 = 9223372036854775808 := by norm_num
    omega
  have hu52 : ((0x3ff0000000000000 + a) >>> 52) % 2048 = 1023 := by
    rw [Nat.shiftRight_eq_div_pow]
    have hdiv : (0x3ff0000000000000 + a) / 2 ^ 52 = 1023 :=
      Nat.div_eq_of_lt_le (by omega) (by omega)
    rw [hdiv]
  have hufrac : (0x3ff0000000000000 + a) % 2 ^ 52 = a := by
    have h1 : (0x3ff0000000000000 : Nat) = 2 ^ 52 * 1023 := by norm_num
    rw [h1, Nat.mul_add_mod, Nat.mod_eq_of_lt halt]
  have hcast : ((a : ℚ)) < 2 ^ 52 := by
    exact_mod_cast halt
  have hval : f64val (a ||| 0x3ff0000000000000) = 1 + (a : ℚ) / 2 ^ 52 := by
    rw [hadd]
    unfold f64val
    rw [hu63, hu52, hufrac, if_neg (by norm_num : ¬(0 % 2 = 1)), one_mul]
    have hpow : ((2 : ℚ) ^ 1075) = 2 ^ 52 * 2 ^ 1023 := by
      rw [← pow_add]
    have h2 : ((2 : ℚ) ^ 52 + (a : ℚ)) * 2 ^ 1023 / 2 ^ 1075 = (2 ^ 52 + (a : ℚ)) / 2 ^ 52 := by
      rw [hpow, mul_comm ((2 : ℚ) ^ 52) (2 ^ 1023), ← div_div, mul_div_assoc,
        div_self (by positivity : ((2 : ℚ) ^ 1023) ≠ 0), mul_one]
    rw [h2, add_div, div_self (by positivity : ((2 : ℚ) ^ 52) ≠ 0)]
  refine ⟨hval, ?_, ?_⟩
  · rw [hval]
    have : (0 : ℚ) ≤ (a : ℚ) / 2 ^ 52 := by positivity
    linarith
  · rw [hval]
    have : (a : ℚ) / 2 ^ 52 < 1 := (div_lt_one (by positivity)).mpr hcast
    linarith


/-!
## The claims
-/

/-- Helper: the digest returned by one step call, as a double, lies in
`[1, 2)`. -/
theorem step_digest_bounds (rs : RandomState) :
    1 ≤ f64val (lj_math_random_step rs).1 ∧ f64val (lj_math_random_step rs).1 < 2 := by
  obtain ⟨_, h1, h2⟩ := f64val_digest
    ((((0 ^^^ TW223_GEN 63 31 18 rs.gen0) ^^^ TW223_GEN 58 19 28 rs.gen1) ^^^
        TW223_GEN 55 24 7 rs.gen2) ^^^ TW223_GEN 47 21 8 rs.gen3)
  exact ⟨h1, h2⟩

/-- **C1** (non-degeneracy invariant): starting from a state produced by
seeding, after any sequence of `randomseed` and `random` calls, for each lane
`i` (with `k = {63, 58, 55, 47}`) the top `k[i]` bits of `gen[i]` — its bits
at positions `64 - k[i]` and above — are not all zero.  The Seeder
establishes the invariant (the `u < m` fix forces a bit at position
`64 - k[i]`) and every step invocation preserves it.  The hypothesis states
that the bit pattern of a double is a 64-bit word. -/
theorem claim1_nondegeneracy_invariant (next : ℚ → ℚ) (bits : ℚ → Nat)
    (hbits : ∀ d, bits d < 2 ^ 64) (rs : RandomState) (h : Reach next bits rs) :
    ∀ i, i < 4 → (genLanes rs).getD i 0 >>> (64 - kList.getD i 0) ≠ 0 := by
  obtain ⟨⟨_, h0⟩, ⟨_, h1⟩, ⟨_, h2⟩, ⟨_, h3⟩⟩ := reach_ok hbits h
  intro i hi
  interval_cases i
  · simpa [genLanes, kList] using h0
  · simpa [genLanes, kList] using h1
  · simpa [genLanes, kList] using h2
  · simpa [genLanes, kList] using h3

/-- Witness for C1: a concrete instantiation (trivial scrambler, all seed bit
patterns `0`) with a concretely seeded state. -/
theorem claim1_nondegeneracy_invariant_witness :
    (∀ d : ℚ, (fun _ : ℚ => (0 : Nat)) d < 2 ^ 64) ∧
    (∀ i, i < 4 →
      (genLanes (random_init id (fun _ : ℚ => 0)
          ⟨0, 0, 0, 0, false⟩ 0)).getD i 0 >>> (64 - kList.getD i 0) ≠ 0) :=
  ⟨fun _ => by norm_num,
   claim1_nondegeneracy_invariant id (fun _ : ℚ => 0) (fun _ => by norm_num) _
     (Reach.seeded ⟨0, 0, 0, 0, false⟩ 0)⟩

/-- **C2** (range of the zero-argument form): for every state,
`math.random()` succeeds with a value `v` satisfying `0 ≤ v < 1`; it is never
`1` and never negative, and it equals `u_raw - 1.0` where `u_raw` is the step
digest read as a double in `[1, 2)`. -/
theorem claim2_random_range (next : ℚ → ℚ) (bits : ℚ → Nat) (rs : RandomState) :
    ∃ v : ℚ, (math_random next bits rs []).1 = Except.ok v ∧
      0 ≤ v ∧ v < 1 ∧
      v = f64val (lj_math_random_step
            (if rs.valid then rs else random_init next bits rs 0)).1 - 1 := by
  obtain ⟨hlo, hhi⟩ := step_digest_bounds
    (if rs.valid then rs else random_init next bits rs 0)
  exact ⟨_, rfl, by linarith, by linarith, rfl⟩

/-- **C3** (Step Engine correctness): the code's step function coincides with
the spec's §4.2 procedure — each lane `i = 0..3` updated in order by
`(((z << q) XOR z) >> (k-s)) XOR (MASK_TOP_k(z) << s)` with the parameters of
`tw223_params`, returning `(r AND 0x000FFFFFFFFFFFFF) OR 0x3FF0000000000000`
for `r` the xor of the updated lanes — and the digest read as a double lies
in `[1.0, 2.0)`. -/
theorem claim3_step_engine (rs : RandomState) :
    lj_math_random_step rs = step_engine_spec rs ∧
    1 ≤ f64val (lj_math_random_step rs).1 ∧ f64val (lj_math_random_step rs).1 < 2 :=
  ⟨rfl, step_digest_bounds rs⟩

/-- **C4** (Seeder correctness): the code's seeding procedure coincides with
the spec's §4.3 loop — for `i = 0..3` take the `i`-th LSB-first byte of
`0x11090601` as shift, `m = 1 << shift` as a 32-bit value, scramble `d`, read
its bits, add `m` if `u < m`, store the lane — then set `valid` and perform
exactly ten discarded step calls.  The byte shifts are `{1, 6, 9, 17}` and
the `m` values `{2, 64, 512, 131072} = {1<<1, 1<<6, 1<<9, 1<<17}`. -/
theorem claim4_seeder (next : ℚ → ℚ) (bits : ℚ → Nat) (rs : RandomState) (d : ℚ) :
    random_init next bits rs d = seeder_spec next bits d ∧
    (List.range 4).map seed_shift = [1, 6, 9, 17] ∧
    (List.range 4).map (fun i => (1 <<< seed_shift i) % 2 ^ 32) =
      [2, 64, 512, 131072] :=
  ⟨rfl, by decide, by decide⟩


/-- **C5** (shaping): with one numeric argument `r1`, `math.random` returns
`floor(d0 * r1) + 1.0`; with two or more numeric arguments it returns
`floor(d0 * (r2 - r1 + 1.0)) + r1`, where `d0` is the raw uniform from this
call's step digest; arguments beyond the second do not affect the result at
all. -/
theorem claim5_shaping (next : ℚ → ℚ) (bits : ℚ → Nat) (rs : RandomState)
    (r1 r2 : ℚ) (rest : List LuaVal) :
    (math_random next bits rs [LuaVal.num r1]).1 =
      Except.ok ((⌊(f64val (lj_math_random_step (if rs.valid then rs
          else random_init next bits rs 0)).1 - 1) * r1⌋ : ℚ) + 1) ∧
    (math_random next bits rs (LuaVal.num r1 :: LuaVal.num r2 :: rest)).1 =
      Except.ok ((⌊(f64val (lj_math_random_step (if rs.valid then rs
          else random_init next bits rs 0)).1 - 1) * (r2 - r1 + 1)⌋ : ℚ) + r1) ∧
    math_random next bits rs (LuaVal.num r1 :: LuaVal.num r2 :: rest) =
      math_random next bits rs [LuaVal.num r1, LuaVal.num r2] :=
  ⟨rfl, rfl, rfl⟩

/-- Counterexample to **C6** as stated: on a valid state, `random` applied to
a single non-coercible argument fails with `ArgTypeError`, yet the state
after the call differs from the state before it — the generator was stepped
before the argument was examined. -/
theorem claim6_counterexample :
    isArgTypeError (math_random id (fun _ : ℚ => 0)
        ⟨2 ^ 63, 2 ^ 57, 2 ^ 54, 2 ^ 46, true⟩ [LuaVal.bad]).1 = true ∧
    (math_random id (fun _ : ℚ => 0)
        ⟨2 ^ 63, 2 ^ 57, 2 ^ 54, 2 ^ 46, true⟩ [LuaVal.bad]).2 ≠
      ⟨2 ^ 63, 2 ^ 57, 2 ^ 54, 2 ^ 46, true⟩ := by
  exact ⟨rfl, by decide⟩

/-- **C6 amended**: when `math.randomseed` fails with `ArgTypeError` the
PRNG state is exactly as before the call (argument extraction precedes
seeding); when `math.random` fails, however, the state is not restored: it
has been seeded (if it was invalid) and advanced by exactly one step, because
`math_random` mutates the state before validating its arguments. -/
theorem claim6_amended (next : ℚ → ℚ) (bits : ℚ → Nat) (rs : RandomState)
    (args : List LuaVal) :
    (isArgTypeError (math_randomseed next bits rs args).1 = true →
      (math_randomseed next bits rs args).2 = rs) ∧
    (isArgTypeError (math_random next bits rs args).1 = true →
      (math_random next bits rs args).2 =
        stepState (if rs.valid then rs else random_init next bits rs 0)) := by
  constructor
  · intro herr
    cases hc : uj_lib_checknum (args.getD 0 .bad) with
    | none => rw [math_randomseed_state, hc]
    | some d =>
      exfalso
      unfold math_randomseed at herr
      rw [hc] at herr
      simp [isArgTypeError] at herr
  · intro _
    exact math_random_state next bits rs args

/-- Witness for the amended C6 at a concrete failing call. -/
theorem claim6_amended_witness :
    (math_randomseed id (fun _ : ℚ => 0) ⟨1, 2, 3, 4, true⟩ [LuaVal.bad]).2 =
      ⟨1, 2, 3, 4, true⟩ ∧
    (math_random id (fun _ : ℚ => 0) ⟨1, 2, 3, 4, true⟩ [LuaVal.bad]).2 =
      stepState (if (⟨1, 2, 3, 4, true⟩ : RandomState).valid then ⟨1, 2, 3, 4, true⟩
        else random_init id (fun _ : ℚ => 0) ⟨1, 2, 3, 4, true⟩ 0) :=
  ⟨(claim6_amended id (fun _ : ℚ => 0) ⟨1, 2, 3, 4, true⟩ [LuaVal.bad]).1 rfl,
   (claim6_amended id (fun _ : ℚ => 0) ⟨1, 2, 3, 4, true⟩ [LuaVal.bad]).2 rfl⟩

/-- Counterexample to **C7** as stated: a call with a non-coercible *third*
argument does not fail — only the first two argument slots are ever
examined. -/
theorem claim7_counterexample :
    isArgTypeError (math_random id (fun _ : ℚ => 0)
      ⟨2 ^ 63, 2 ^ 57, 2 ^ 54, 2 ^ 46, true⟩
      [LuaVal.num 1, LuaVal.num 2, LuaVal.bad]).1 = false :=
  rfl

/-- **C7 amended**: `math.random` fails with `ArgTypeError` exactly when its
first argument (when at least one is supplied), or its second argument (when
at least two are supplied), is not coercible to a number; arguments beyond
the second are never examined and never cause failure. -/
theorem claim7_amended (next : ℚ → ℚ) (bits : ℚ → Nat) (rs : RandomState) :
    isArgTypeError (math_random next bits rs []).1 = false ∧
    (∀ a1, isArgTypeError (math_random next bits rs [a1]).1 = true ↔
      uj_lib_checknum a1 = none) ∧
    (∀ a1 a2 rest,
      isArgTypeError (math_random next bits rs (a1 :: a2 :: rest)).1 = true ↔
        (uj_lib_checknum a1 = none ∨ uj_lib_checknum a2 = none)) := by
  refine ⟨rfl, ?_, ?_⟩
  · intro a1
    cases a1 <;> simp [math_random, uj_lib_checknum, isArgTypeError]
  · intro a1 a2 rest
    cases a1 <;> cases a2 <;> simp [math_random, uj_lib_checknum, isArgTypeError]

/-- **C8** (determinism and full replacement): `randomseed(s)` yields the
same resulting state regardless of the prior contents of the PRNG state, so
the sequence of `random()` outcomes after seeding is a function of the seed
alone: two instances seeded with the same `s` produce identical sequences. -/
theorem claim8_determinism (next : ℚ → ℚ) (bits : ℚ → Nat) (s : ℚ)
    (rs rs' : RandomState) :
    (math_randomseed next bits rs [LuaVal.num s]).2 =
      (math_randomseed next bits rs' [LuaVal.num s]).2 ∧
    ∀ n, randomSeq next bits n (math_randomseed next bits rs [LuaVal.num s]).2 =
      randomSeq next bits n (math_randomseed next bits rs' [LuaVal.num s]).2 := by
  have h : (math_randomseed next bits rs [LuaVal.num s]).2 =
      (math_randomseed next bits rs' [LuaVal.num s]).2 := rfl
  exact ⟨h, fun n => by rw [h]⟩

/-- **C9** (lazy initialization and step count): if `valid` is false,
`random` first seeds with `d = 0.0` (which itself performs the ten warm-up
steps after filling the lanes); every call then advances the state by exactly
one step; if `valid` is already true no seeding occurs. -/
theorem claim9_lazy_init (next : ℚ → ℚ) (bits : ℚ → Nat) (rs : RandomState)
    (args : List LuaVal) :
    (math_random next bits rs args).2 =
      stepState (if rs.valid then rs else random_init next bits rs 0) ∧
    random_init next bits rs 0 = stepN 10 (seedCore next bits 0) ∧
    (rs.valid = true → (math_random next bits rs args).2 = stepState rs) :=
  ⟨math_random_state next bits rs args, rfl, fun hv => by
    rw [math_random_state, if_pos hv]⟩

/-- Witness for C9 on a concrete already-valid state. -/
theorem claim9_lazy_init_witness :
    (math_random id (fun _ : ℚ => 0) ⟨5, 6, 7, 8, true⟩ []).2 =
      stepState ⟨5, 6, 7, 8, true⟩ :=
  (claim9_lazy_init id (fun _ : ℚ => 0) ⟨5, 6, 7, 8, true⟩ []).2.2 rfl

/-- **C10** (shift-count safety): in the step function every lane's shift
amounts `q`, `k - s`, `s` and `64 - k` lie in `[1, 63]` — they are
`{31,19,24,21}`, `{45,30,48,39}`, `{18,28,7,8}` and `{1,6,9,17}` — and in the
seeder the shift `r & 255` takes only the values `{1, 6, 9, 17}`, all below
32, across the four iterations; hence no shift is out of range for its
operand width. -/
theorem claim10_shift_safety :
    (∀ p ∈ tw223_params,
      (1 ≤ p.2.1 ∧ p.2.1 ≤ 63) ∧
      (1 ≤ p.1 - p.2.2 ∧ p.1 - p.2.2 ≤ 63) ∧
      (1 ≤ p.2.2 ∧ p.2.2 ≤ 63) ∧
      (1 ≤ 64 - p.1 ∧ 64 - p.1 ≤ 63)) ∧
    tw223_params.map (fun p => p.2.1) = [31, 19, 24, 21] ∧
    tw223_params.map (fun p => p.1 - p.2.2) = [45, 30, 48, 39] ∧
    tw223_params.map (fun p => p.2.2) = [18, 28, 7, 8] ∧
    tw223_params.map (fun p => 64 - p.1) = [1, 6, 9, 17] ∧
    (∀ i, i < 4 → seed_shift i < 32) ∧
    (List.range 4).map seed_shift = [1, 6, 9, 17] := by
  exact ⟨by decide, rfl, rfl, rfl, rfl, by decide, by decide⟩


end LuaVelaMath
